import Mathlib

/- Formal model of the BCP protocol engine in mpf/plugins/bcp.py
   (Mission Pinball Framework, Python 2).  The definitions below are
   shallow embeddings of the source functions; the theorems at the end
   of the file settle the specification claims. -/

/-- Python exception classes that the modelled code can raise or catch. -/
inductive PyExc where
  | typeError
  | attributeError
  | unicodeEncodeError
  | valueError
  | keyError
deriving DecidableEq

/-- Result of running a piece of Python code: a value, or a raised exception. -/
inductive PyResult (α : Type) where
  | val (a : α)
  | exc (e : PyExc)
deriving DecidableEq

/-- Sequencing of two Python computations: a raised exception propagates. -/
def pyResultBind {α β : Type} : PyResult α → (α → PyResult β) → PyResult β
  | PyResult.val a, f => f a
  | PyResult.exc e, _ => PyResult.exc e

/-- Model of a Python 2 value passed as a keyword argument to
`encode_command_string`: either `str(v)` succeeds, yielding the given
string, or `str(v)` raises `TypeError` (an object whose conversion
fails that way), or `str(v)` raises `UnicodeEncodeError` (a `unicode`
value containing non-ASCII characters). -/
inductive PyVal where
  | ok (s : String)
  | strRaisesType
  | strRaisesUnicode
deriving DecidableEq

/-- Python 2 `str.lower()` (ASCII-only lowercasing, which is exactly what
`Char.toLower` does). -/
def pyLower (s : String) : String := (s.data.map Char.toLower).asString

/-- Python `s.split(sep)` (no maxsplit) on a list of characters: keeps empty
segments and always returns at least one (possibly empty) segment. -/
def pySplitOn (sep : Char) : List Char → List (List Char)
  | [] => [[]]
  | c :: cs =>
    if c = sep then [] :: pySplitOn sep cs
    else (c :: (pySplitOn sep cs).headI) :: (pySplitOn sep cs).tail

/-- Python `lst[-1:][0]` for a non-empty list of character lists
(and `[]` on the empty list, which never arises). -/
def pyLast : List (List Char) → List Char
  | [] => []
  | [x] => x
  | _ :: xs => pyLast xs

/-- Python `s.split(sep, 1)` when `sep` occurs: the parts before and after
the first occurrence; `none` when `sep` does not occur at all. -/
def splitFirstChar (sep : Char) : List Char → Option (List Char × List Char)
  | [] => none
  | c :: cs =>
    if c = sep then some ([], cs)
    else (splitFirstChar sep cs).map (fun p => (c :: p.1, p.2))

/-- Upper-case hexadecimal digit, as produced by Python 2 `urllib.quote`
(format string `%02X`). -/
def hexDigitUpper (n : Nat) : Char :=
  if n < 10 then Char.ofNat (48 + n) else Char.ofNat (55 + n)

/-- Per-character behaviour of Python 2 `urllib.quote_plus` with empty
`safe`: space becomes `+`; letters, digits and `_.-` (urllib's
`always_safe`) are kept; every other byte becomes `%XX`. -/
def quote_plus_char (c : Char) : List Char :=
  if c = ' ' then ['+']
  else if c.isAlphanum ∨ c = '_' ∨ c = '.' ∨ c = '-' then [c]
  else ['%', hexDigitUpper (c.toNat / 16 % 16), hexDigitUpper (c.toNat % 16)]

/-- Python 2 `urllib.quote_plus(s)` over the characters of `s`. -/
def quote_plus (s : List Char) : List Char := (s.map quote_plus_char).flatten

/-- Hexadecimal digit test, as in urlparse's `_hexdig` (both cases). -/
def isHexDig (c : Char) : Bool :=
  c.isDigit || ('a' ≤ c && c ≤ 'f') || ('A' ≤ c && c ≤ 'F')

/-- Numeric value of a hexadecimal digit. -/
def hexVal (c : Char) : Nat :=
  if c.isDigit then c.toNat - 48
  else if 'a' ≤ c then c.toNat - 87
  else c.toNat - 55

/-- Processing of one `%`-suffix inside Python 2 `unquote`: if the first two
characters are hex digits the escape is decoded (the byte value taken as a
latin-1 code point, which is what both of the stdlib's `unquote` variants
produce on the unicode strings used here), otherwise the literal `%` is
restored. -/
def unquote_item (item : List Char) : List Char :=
  match item with
  | a :: b :: rest =>
    if isHexDig a && isHexDig b then Char.ofNat (16 * hexVal a + hexVal b) :: rest
    else '%' :: item
  | _ => '%' :: item

/-- Python 2 `unquote`: split on `%` and decode each two-digit hex escape. -/
def unquote (s : List Char) : List Char :=
  match pySplitOn '%' s with
  | [] => s
  | [_] => s
  | b :: rest => b ++ (rest.map unquote_item).flatten

/-- Python `s.replace('+', ' ')`, used by `parse_qsl` before unquoting. -/
def plusToSpace (s : List Char) : List Char :=
  s.map (fun c => if c = '+' then ' ' else c)

/-- One `name=value` candidate inside Python 2 `urlparse.parse_qsl` with
default arguments: pairs without `=` or with an empty value are dropped
(`keep_blank_values` is false); name and value get `+` replaced by space
and are unquoted. -/
def parse_pair (nv : List Char) : Option (List Char × List Char) :=
  match splitFirstChar '=' nv with
  | none => none
  | some (n, v) =>
    if v = [] then none
    else some (unquote (plusToSpace n), unquote (plusToSpace v))

/-- Python 2 `urlparse.parse_qsl(qs)` with default arguments: split on `&`,
split the pieces on `;`, then parse each candidate pair. -/
def parse_qsl (qs : List Char) : List (List Char × List Char) :=
  (((pySplitOn '&' qs).map (pySplitOn ';')).flatten).filterMap parse_pair

/-- Aggregation performed by `urlparse.parse_qs`: the result dictionary maps
each name to the list of its values, and `decode_command_string` then keeps
`v[0]`, the value of the first occurrence.  The dictionary is modelled as an
association list keyed in order of first insertion. -/
def dedupFirst : List (List Char × List Char) → List (List Char × List Char)
  | [] => []
  | p :: rest => p :: (dedupFirst rest).filter (fun q => !(q.1 == p.1))

/-- Scheme characters accepted by Python 2 `urlparse.urlsplit`. -/
def isSchemeChar (c : Char) : Bool :=
  c.isAlpha || c.isDigit || c == '+' || c == '-' || c == '.'

/-- Python 2 `urlparse.uses_query` (note that it contains `''`). -/
def uses_query : List String :=
  ["http", "wais", "imap", "https", "shttp", "mms", "gopher", "rtsp",
   "rtspu", "sip", "sips", "snews", "tel", "fax", "modem", ""]

/-- Python 2 `urlparse.uses_fragment` (note that it contains `''`). -/
def uses_fragment : List String :=
  ["ftp", "hdl", "http", "gopher", "news", "nntp", "wais", "https",
   "shttp", "snews", "file", "prospero", ""]

/-- Python 2 `urlparse._splitnetloc(url, 2)` after the leading `//` has been
dropped: the network location runs until the first of `/?#`. -/
def splitnetloc (l : List Char) : List Char × List Char :=
  (l.takeWhile (fun c => !(c == '/' || c == '?' || c == '#')),
   l.dropWhile (fun c => !(c == '/' || c == '?' || c == '#')))

/-- Unbalanced-bracket check of `urlsplit`, which raises
`ValueError("Invalid IPv6 URL")` when it holds. -/
def invalid_ipv6 (netloc : List Char) : Bool :=
  (netloc.contains '[' && !netloc.contains ']') ||
  (netloc.contains ']' && !netloc.contains '[')

/-- Scheme extraction of Python 2 `urlparse.urlsplit`: the text before the
first `:` becomes the scheme if it is non-empty and either equals `http`
(the fast path, which skips the port-number check) or consists of scheme
characters and is not followed by a pure port number. -/
def split_scheme (url : List Char) : String × List Char :=
  match splitFirstChar ':' url with
  | none => ("", url)
  | some (before, after) =>
    if before = [] then ("", url)
    else if before = ("http").data then ("http", after)
    else if before.all isSchemeChar then
      if after = [] ∨ after.any (fun c => !c.isDigit) then
        ((before.map Char.toLower).asString, after)
      else ("", url)
    else ("", url)

/-- Result record of `urlparse.urlsplit`. -/
structure SplitResult where
  scheme : String
  netloc : List Char
  path : List Char
  query : List Char
  fragment : List Char

/-- Python 2 `urlparse.urlsplit(url)` with default arguments: extract the
scheme, then the network location after a leading `//` (raising on
unbalanced IPv6 brackets), then split off fragment and query when the scheme
allows them (the empty scheme does; the `http` fast path always does, which
coincides with the general path because `http` is in both lists). -/
def urlsplit (url : List Char) : PyResult SplitResult :=
  let sp := split_scheme url
  let scheme := sp.1
  let nl := if sp.2.take 2 = ['/', '/'] then splitnetloc (sp.2.drop 2) else ([], sp.2)
  if invalid_ipv6 nl.1 then PyResult.exc PyExc.valueError
  else
    let fr := if uses_fragment.contains scheme then
                match splitFirstChar '#' nl.2 with
                | none => (nl.2, ([] : List Char))
                | some p => p
              else (nl.2, [])
    let pq := if uses_query.contains scheme then
                match splitFirstChar '?' fr.1 with
                | none => (fr.1, ([] : List Char))
                | some p => p
              else (fr.1, [])
    PyResult.val ⟨scheme, nl.1, pq.1, pq.2, fr.2⟩

/-- Source `decode_command_string` (bcp.py lines 35-46): lowercase the whole
wire string, `urlsplit` it, `parse_qs` the query (the dead
`except AttributeError` never fires), then replace each entry by the
`unquote` of the first value of that key. -/
def decode_command_string (bcp_string : String) : PyResult (String × List (String × String)) :=
  match urlsplit (bcp_string.data.map Char.toLower) with
  | PyResult.exc e => PyResult.exc e
  | PyResult.val r =>
    let kwargs := dedupFirst (parse_qsl r.query)
    PyResult.val (r.path.asString, kwargs.map (fun p => (p.1.asString, (unquote p.2).asString)))

/-- The scrubbing loop of `encode_command_string` (bcp.py lines 53-55): it
runs `str(v).lower()` on every value in order; on success the stringified
pairs are reported (they are what `urllib.urlencode(kwargs)` stringifies
again on line 57 - note the source encodes `kwargs`, not the lowercased
`scrubbed_kwargs` dict, which is discarded); on an exception it reports the
exception together with the number of items already inserted into the
partial `scrubbed_kwargs` dict. -/
def scrub_kwargs : List (String × PyVal) → Except (PyExc × Nat) (List (String × String))
  | [] => Except.ok []
  | (k, v) :: rest =>
    match v with
    | PyVal.ok s =>
      match scrub_kwargs rest with
      | Except.ok l => Except.ok ((k, s) :: l)
      | Except.error (e, n) => Except.error (e, n + 1)
    | PyVal.strRaisesType => Except.error (PyExc.typeError, 0)
    | PyVal.strRaisesUnicode => Except.error (PyExc.unicodeEncodeError, 0)

/-- Python 2 `urllib.urlencode` on the keyword arguments:
`'&'.join(quote_plus(str(k)) + '=' + quote_plus(str(v)))`. -/
def urlencodeL : List (String × String) → List Char
  | [] => []
  | (k, v) :: rest =>
    let piece := quote_plus k.data ++ '=' :: quote_plus v.data
    match rest with
    | [] => piece
    | _ :: _ => piece ++ '&' :: urlencodeL rest

/-- Source `encode_command_string` (bcp.py lines 49-63).  The scrubbing loop
and `urlencode` run inside a `try` that catches only `TypeError` and
`AttributeError`; a caught exception leaves `scrubbed_kwargs` as the
partially built dict, and `urlunparse` then either yields the bare
lowercased command name (empty dict, falsy query) or raises `TypeError`
when it concatenates the non-empty dict onto `path + '?'`.  An uncaught
exception (such as `UnicodeEncodeError` from `str` on a non-ASCII
`unicode` value) propagates. -/
def encode_command_string (bcp_command : String) (kwargs : List (String × PyVal)) : PyResult String :=
  match scrub_kwargs kwargs with
  | Except.error (e, n) =>
    if e = PyExc.typeError ∨ e = PyExc.attributeError then
      if n = 0 then PyResult.val (pyLower bcp_command)
      else PyResult.exc PyExc.typeError
    else PyResult.exc e
  | Except.ok pairs =>
    let qs := urlencodeL pairs
    if qs = [] then PyResult.val (pyLower bcp_command)
    else PyResult.val (((pyLower bcp_command).data ++ '?' :: qs).asString)

/-- Framing step of `BCPClient.receive_loop` (bcp.py lines 597-623) for one
`recv` result: an empty read changes nothing; otherwise the outstanding
fragment is prepended, and if the data holds no line-feed it all becomes the
new fragment, else the data is split on line-feed, the last segment (the
text after the last line-feed, possibly empty) becomes the new fragment
(`messages[-1:]` is always truthy) and the remaining non-empty segments are
the complete messages, processed in order. -/
def bcp_assemble (fragment : List Char) (chunk : List Char) : List Char × List (List Char) :=
  if chunk = [] then (fragment, [])
  else
    let data := if fragment = [] then chunk else fragment ++ chunk
    if '\n' ∈ data then
      let messages := pySplitOn '\n' data
      (pyLast messages, messages.dropLast.filter (fun m => !m.isEmpty))
    else (data, [])

/-- Repeated `recv` reads: feed each chunk through `bcp_assemble`, returning
the final fragment and all messages emitted, in order. -/
def feedAll (fragment : List Char) : List (List Char) → List Char × List (List Char)
  | [] => (fragment, [])
  | c :: cs =>
    let r1 := bcp_assemble fragment c
    let r2 := feedAll r1.1 cs
    (r2.1, r1.2 ++ r2.2)

/-- Character-at-a-time reference framer used to prove that `bcp_assemble`
is insensitive to chunk boundaries: state is the live fragment and the
messages emitted so far. -/
def stepChar (st : List Char × List (List Char)) (c : Char) : List Char × List (List Char) :=
  if c = '\n' then ([], if st.1 = [] then st.2 else st.2 ++ [st.1])
  else (st.1 ++ [c], st.2)

/-- Per-connection configuration (bcp.py lines 477-484):
`connection_attempts` defaults to `-1` (unbounded), `require_connection`
to false.  `host`/`port` only feed the real TCP connect, which is
modelled by the `connect_ok` oracle. -/
structure BCPClientConfig where
  connection_attempts : Int
  require_connection : Bool
deriving DecidableEq

/-- Mutable state of one `BCPClient` (bcp.py lines 486-492) plus the shared
`machine.done` flag that `setup_client_socket` and `receive_goodbye` set. -/
structure ClientState where
  config : BCPClientConfig
  sending_queue : List String
  socket : Bool
  connection_attempts : Nat
  attempt_socket_connection : Bool
  send_goodbye : Bool
  machine_done : Bool
deriving DecidableEq

namespace BCPClient

/-- The `hello` line enqueued after a successful connect:
`'hello?version=' + __bcp_version__` with `__bcp_version__ = '1.0'`. -/
def hello_message : String := "hello?version=1.0"

/-- Client state as left by `__init__` just before its final
`setup_client_socket()` call (bcp.py lines 486-492). -/
def initial_client (config : BCPClientConfig) : ClientState :=
  ⟨config, [], false, 0, true, true, false⟩

/-- Source `BCPClient.setup_client_socket` (bcp.py lines 500-534): increment
the attempt counter; if the configured maximum is `-1` or the counter is
still below it, attempt a TCP connect (outcome given by `connect_ok`):
on success the counter resets, the socket is present, and
`create_socket_threads` succeeding makes `send_hello` enqueue the hello
line (the nested `send` only enqueues, the socket being present); on
failure the socket is cleared and, when `require_connection` is set,
`machine.done` is set.  Otherwise give up:
`attempt_socket_connection = False`. -/
def setup_client_socket (connect_ok : Bool) (s : ClientState) : ClientState :=
  let s1 := { s with connection_attempts := s.connection_attempts + 1 }
  if s1.config.connection_attempts = -1 ∨
      (s1.connection_attempts : Int) < s1.config.connection_attempts then
    if connect_ok then
      { s1 with socket := true, connection_attempts := 0,
                sending_queue := s1.sending_queue ++ [hello_message] }
    else
      { s1 with socket := false,
                machine_done := s1.machine_done || s1.config.require_connection }
  else
    { s1 with attempt_socket_connection := false }

/-- Source `BCPClient.send` (bcp.py lines 571-581): when no socket is
present and connection attempts are still allowed, synchronously run
`setup_client_socket`; in every case append the message to the sending
queue. -/
def send (connect_ok : Bool) (s : ClientState) (message : String) : ClientState :=
  let s1 := if !s.socket && s.attempt_socket_connection
            then setup_client_socket connect_ok s else s
  { s1 with sending_queue := s1.sending_queue ++ [message] }

/-- Source `BCPClient.stop` (bcp.py lines 560-569): when a socket is
present, first `send('goodbye')` if the goodbye flag is still set (the
socket being present, this `send` only enqueues; its connect oracle is
irrelevant), then close the socket and clear the reference. -/
def stop (s : ClientState) : ClientState :=
  if s.socket then
    let s1 := if s.send_goodbye then send false s ("goodbye") else s
    { s1 with socket := false }
  else s

end BCPClient

/-- Python object identity for the engine (`BCP`) object and the
`BCPClient` objects held in `bcp_clients`. -/
inductive BCPRef where
  | engine
  | client (n : Nat)
deriving DecidableEq

/-- Engine-side state: the registry of active clients and whether
`BCP.shutdown` has been invoked. -/
structure EngineState where
  bcp_clients : List BCPRef
  shutdown_called : Bool
deriving DecidableEq

namespace BCP

/-- Source `BCP.remove_bcp_connection` (bcp.py lines 193-204).  The body is
`self.bcp_clients.remove(self)` inside a `try/except ValueError: pass` -
`self` being the engine object, not the `bcp_client` parameter, which is
unused.  Python's `list.remove` drops the first equal element or raises
`ValueError`, which is swallowed. -/
def remove_bcp_connection (bcp_clients : List BCPRef) (bcp_client : BCPRef) : List BCPRef :=
  if BCPRef.engine ∈ bcp_clients then bcp_clients.erase BCPRef.engine
  else bcp_clients

end BCP

namespace BCPClient

/-- Source `BCPClient.receive_goodbye` (bcp.py lines 662-670): clear the
goodbye flag, `stop()`, call `machine.bcp.remove_bcp_connection(self)`, and
when `require_connection` is set also call `machine.bcp.shutdown()`
(recorded in `shutdown_called`; it stops every registered client, a no-op
for this one whose socket is already closed) and set `machine.done`. -/
def receive_goodbye (self : BCPRef) (s : ClientState) (es : EngineState) :
    ClientState × EngineState :=
  let s1 := { s with send_goodbye := false }
  let s2 := stop s1
  let es1 := { es with bcp_clients := BCP.remove_bcp_connection es.bcp_clients self }
  if s2.config.require_connection then
    ({ s2 with machine_done := true }, { es1 with shutdown_called := true })
  else (s2, es1)

end BCPClient

/-- One observable effect of the host-tick drain `BCP.get_bcp_messages`:
either the matching registered handler is invoked with the decoded
parameters, or `send('error', message='invalid command', command=cmd)`
is issued. -/
inductive TickAction where
  | handled (cmd : String) (kwargs : List (String × String))
  | errorReply (message : String) (command : String)
deriving DecidableEq

/-- Keys of the engine's `bcp_receive_commands` table (bcp.py lines 133-136). -/
def bcp_receive_command_names : List String := ["error", "switch", "trigger"]

namespace BCP

/-- Source `BCP.get_bcp_messages` (bcp.py lines 366-380): drain the receive
queue; a command whose name is in `bcp_receive_commands` invokes its
handler, any other name is answered with
`send('error', message='invalid command', command=cmd)`. -/
def get_bcp_messages : List (String × List (String × String)) → List TickAction
  | [] => []
  | (cmd, kwargs) :: rest =>
    (if cmd ∈ bcp_receive_command_names then TickAction.handled cmd kwargs
     else TickAction.errorReply ("invalid command") cmd) :: get_bcp_messages rest

end BCP

/-- Keys of the client's inline `bcp_commands` table (bcp.py lines 494-496). -/
def bcp_command_names : List String := ["hello", "goodbye"]

/-- Routing of one complete framed message inside `receive_loop`
(bcp.py lines 623-639). -/
inductive RxAction where
  | dmdFrame (payload : String)
  | inline (cmd : String) (kwargs : List (String × String))
  | queued (cmd : String) (kwargs : List (String × String))
deriving DecidableEq

namespace BCPClient

/-- Per-message routing of `receive_loop` (bcp.py lines 623-639): a message
starting with `dmd_frame` forwards `message[10:]` to the DMD immediately;
otherwise the message is decoded and, if the command is in `bcp_commands`
(`hello`/`goodbye`), dispatched inline on the receive thread, else pushed
onto the receive queue. -/
def handle_message (message : String) : PyResult RxAction :=
  if List.isPrefixOf (("dmd_frame").data) message.data then
    PyResult.val (RxAction.dmdFrame ((message.data.drop 10).asString))
  else
    match decode_command_string message with
    | PyResult.exc e => PyResult.exc e
    | PyResult.val (cmd, kwargs) =>
      if cmd ∈ bcp_command_names then PyResult.val (RxAction.inline cmd kwargs)
      else PyResult.val (RxAction.queued cmd kwargs)

end BCPClient

/-- Observable outcome of an inline handler call. -/
inductive InlineEffect where
  | helloLogged
  | goodbyeRun
deriving DecidableEq

namespace BCPClient

/-- Python call semantics of `self.bcp_commands[cmd](**kwargs)`
(bcp.py line 637): `receive_hello(self, **kwargs)` accepts any keyword
arguments; `receive_goodbye(self)` declares none, so any non-empty kwargs
raise `TypeError` before the handler body runs.  Other names are not in
the table (`receive_loop` never calls this for them); a lookup would raise
`KeyError`. -/
def dispatch_inline (cmd : String) (kwargs : List (String × String)) : PyResult InlineEffect :=
  if cmd = "hello" then PyResult.val InlineEffect.helloLogged
  else if cmd = "goodbye" then
    if kwargs = [] then PyResult.val InlineEffect.goodbyeRun
    else PyResult.exc PyExc.typeError
  else PyResult.exc PyExc.keyError

end BCPClient

/-- The lowercase ASCII alphanumeric characters. -/
def lowerAlnumChars : List Char :=
  ("abcdefghijklmnopqrstuvwxyz0123456789").data

/-- The ASCII alphanumeric characters (both cases and digits). -/
def alnumChars : List Char :=
  ("abcdefghijklmnopqrstuvwxyzABCDEFGHIJKLMNOPQRSTUVWXYZ0123456789").data

/- ------------------------------------------------------------------ -/
/- Helper lemmas about the connection state machine                    -/

theorem foldl_send_no_attempt (ok : Bool) (msgs : List String) :
    ∀ st : ClientState, st.socket = false → st.attempt_socket_connection = false →
      List.foldl (BCPClient.send ok) st msgs =
        { st with sending_queue := st.sending_queue ++ msgs } := by
  induction msgs with
  | nil => intro st _ _; simp
  | cons m ms ih =>
    intro st h1 h2
    have hstep : BCPClient.send ok st m = { st with sending_queue := st.sending_queue ++ [m] } := by
      simp [BCPClient.send, h1, h2]
    rw [List.foldl_cons, hstep, ih _ (by simp [h1]) (by simp [h2])]
    simp

theorem setup_queue_cases (ok : Bool) (s : ClientState) :
    (BCPClient.setup_client_socket ok s).sending_queue = s.sending_queue ∨
    (BCPClient.setup_client_socket ok s).sending_queue =
      s.sending_queue ++ [BCPClient.hello_message] := by
  simp only [BCPClient.setup_client_socket]
  split
  · split
    · right; simp
    · left; simp
  · left; simp

/- ------------------------------------------------------------------ -/
/- Claim theorems (first batch)                                        -/

/-- C1: with `connection_attempts = 3` configured, after three calls to
`setup_client_socket` that fail to connect, starting from a freshly
initialised client, the connection is in the giving-up state
(`attempt_socket_connection = false`, no socket), and thereafter any
sequence of `send` calls only appends the messages to the sending queue -
the state is otherwise unchanged, so no further connect attempt is made,
whatever the connect oracle would answer. -/
theorem reconnect_gives_up (req : Bool) :
    (BCPClient.setup_client_socket false (BCPClient.setup_client_socket false
      (BCPClient.setup_client_socket false
        (BCPClient.initial_client ⟨3, req⟩)))).attempt_socket_connection = false ∧
    (BCPClient.setup_client_socket false (BCPClient.setup_client_socket false
      (BCPClient.setup_client_socket false
        (BCPClient.initial_client ⟨3, req⟩)))).socket = false ∧
    ∀ (ok : Bool) (msgs : List String),
      List.foldl (BCPClient.send ok)
        (BCPClient.setup_client_socket false (BCPClient.setup_client_socket false
          (BCPClient.setup_client_socket false (BCPClient.initial_client ⟨3, req⟩)))) msgs =
      { BCPClient.setup_client_socket false (BCPClient.setup_client_socket false
          (BCPClient.setup_client_socket false (BCPClient.initial_client ⟨3, req⟩))) with
        sending_queue :=
          (BCPClient.setup_client_socket false (BCPClient.setup_client_socket false
            (BCPClient.setup_client_socket false
              (BCPClient.initial_client ⟨3, req⟩)))).sending_queue ++ msgs } := by
  have h : BCPClient.setup_client_socket false (BCPClient.setup_client_socket false
      (BCPClient.setup_client_socket false (BCPClient.initial_client ⟨3, req⟩))) =
      ⟨⟨3, req⟩, [], false, 3, false, true, req⟩ := by
    cases req <;> decide
  refine ⟨by rw [h], by rw [h], ?_⟩
  intro ok msgs
  rw [h]
  exact foldl_send_no_attempt ok msgs _ rfl rfl

/-- C1 witness: a concrete run with `connection_attempts = 3` and
`require_connection` off reaches the giving-up state, and a subsequent
`send` only enqueues. -/
theorem reconnect_gives_up_witness :
    (BCPClient.setup_client_socket false (BCPClient.setup_client_socket false
      (BCPClient.setup_client_socket false
        (BCPClient.initial_client ⟨3, false⟩)))).attempt_socket_connection = false ∧
    List.foldl (BCPClient.send true)
      (BCPClient.setup_client_socket false (BCPClient.setup_client_socket false
        (BCPClient.setup_client_socket false (BCPClient.initial_client ⟨3, false⟩))))
      [("x")] =
    { BCPClient.setup_client_socket false (BCPClient.setup_client_socket false
        (BCPClient.setup_client_socket false (BCPClient.initial_client ⟨3, false⟩))) with
      sending_queue :=
        (BCPClient.setup_client_socket false (BCPClient.setup_client_socket false
          (BCPClient.setup_client_socket false
            (BCPClient.initial_client ⟨3, false⟩)))).sending_queue ++ [("x")] } :=
  ⟨(reconnect_gives_up false).1, (reconnect_gives_up false).2.2 true [("x")]⟩

/-- C4: draining the receive queue produces exactly one action per queued
entry, in order: entries whose command name is in `bcp_receive_commands`
(`error`, `switch`, `trigger`) invoke their handler with the decoded
parameters, every other entry produces exactly one outbound `error`
command with `message='invalid command'` and the offending command name. -/
theorem get_bcp_messages_one_action_each (q : List (String × List (String × String))) :
    BCP.get_bcp_messages q = q.map (fun e =>
      if e.1 ∈ bcp_receive_command_names then TickAction.handled e.1 e.2
      else TickAction.errorReply ("invalid command") e.1) := by
  induction q with
  | nil => rfl
  | cons e rest ih =>
    cases e
    simp only [BCP.get_bcp_messages, List.map_cons, ih]

/-- C5: evaluation of `receive_goodbye` at a concrete connected client
registered as the only entry of `bcp_clients`.  The goodbye flag is
cleared, `stop()` runs (socket closed, goodbye no longer enqueued), but the
client is NOT removed from `bcp_clients`: the source's
`remove_bcp_connection` calls `self.bcp_clients.remove(self)` on the
engine object itself, whose `ValueError` is swallowed, so the registry is
left unchanged. -/
theorem receive_goodbye_client_not_removed :
    (BCPClient.receive_goodbye (BCPRef.client 0)
        ⟨⟨-1, false⟩, [], true, 0, true, true, false⟩
        ⟨[BCPRef.client 0], false⟩).2.bcp_clients = [BCPRef.client 0] ∧
    BCPRef.client 0 ∈ (BCPClient.receive_goodbye (BCPRef.client 0)
        ⟨⟨-1, false⟩, [], true, 0, true, true, false⟩
        ⟨[BCPRef.client 0], false⟩).2.bcp_clients ∧
    (BCPClient.receive_goodbye (BCPRef.client 0)
        ⟨⟨-1, false⟩, [], true, 0, true, true, false⟩
        ⟨[BCPRef.client 0], false⟩).1.send_goodbye = false ∧
    (BCPClient.receive_goodbye (BCPRef.client 0)
        ⟨⟨-1, false⟩, [], true, 0, true, true, false⟩
        ⟨[BCPRef.client 0], false⟩).1.socket = false := by
  decide

/-- C6: `encode_command_string` does raise.  A single parameter whose
`str()` raises `UnicodeEncodeError` (a non-ASCII `unicode` value)
propagates, since the `except` clause only catches `TypeError` and
`AttributeError`; a non-stringifiable parameter processed after a
stringifiable one leaves a non-empty partial dict in `scrubbed_kwargs`,
which `urlunparse` then fails to concatenate (`TypeError`).  Only when the
very first parameter fails with a caught exception does the intended
fallback to the bare command name happen. -/
theorem encode_command_string_raises :
    encode_command_string ("cmd") [(("a"), PyVal.strRaisesUnicode)] =
      PyResult.exc PyExc.unicodeEncodeError ∧
    encode_command_string ("cmd") [(("a"), PyVal.ok ("1")), (("b"), PyVal.strRaisesType)] =
      PyResult.exc PyExc.typeError ∧
    encode_command_string ("cmd") [(("a"), PyVal.strRaisesType)] = PyResult.val ("cmd") := by
  refine ⟨rfl, rfl, ?_⟩
  decide

/-- C7: when a socket is present, `stop()` closes it and clears the socket
reference; if the goodbye flag is still set a single `goodbye` message is
enqueued (before the socket is cleared), and if goodbye was already
received (flag cleared) the sending queue is untouched. -/
theorem stop_goodbye_then_clears (s : ClientState) (hs : s.socket = true) :
    (BCPClient.stop s).socket = false ∧
    (s.send_goodbye = true →
      (BCPClient.stop s).sending_queue = s.sending_queue ++ [("goodbye" : String)]) ∧
    (s.send_goodbye = false →
      (BCPClient.stop s).sending_queue = s.sending_queue) := by
  refine ⟨?_, ?_, ?_⟩
  · cases hg : s.send_goodbye <;> simp [BCPClient.stop, BCPClient.send, hs, hg]
  · intro hg; simp [BCPClient.stop, BCPClient.send, hs, hg]
  · intro hg; simp [BCPClient.stop, hs, hg]

/-- C7 witness: a connected client still owing a goodbye enqueues exactly
`goodbye` and ends with no socket. -/
theorem stop_goodbye_then_clears_witness :
    (BCPClient.stop ⟨⟨-1, false⟩, [], true, 0, true, true, false⟩).socket = false ∧
    (BCPClient.stop ⟨⟨-1, false⟩, [], true, 0, true, true, false⟩).sending_queue =
      [] ++ [("goodbye" : String)] :=
  ⟨(stop_goodbye_then_clears ⟨⟨-1, false⟩, [], true, 0, true, true, false⟩ rfl).1,
   (stop_goodbye_then_clears ⟨⟨-1, false⟩, [], true, 0, true, true, false⟩ rfl).2.1 rfl⟩

/-- C10: every `send(message)` call appends its message exactly once at the
end of the sending queue, in every state - socket present or not, connect
attempt triggered or not, successful or not, attempts exhausted or not.
The queue is otherwise extended only by the `hello` line of a successful
triggered connect; nothing is dropped. -/
theorem send_always_enqueues (s : ClientState) (ok : Bool) (msg : String) :
    ∃ extra, (BCPClient.send ok s msg).sending_queue = s.sending_queue ++ extra ++ [msg] ∧
      (extra = [] ∨ extra = [BCPClient.hello_message]) := by
  unfold BCPClient.send
  by_cases h : (!s.socket && s.attempt_socket_connection) = true
  · rw [if_pos h]
    rcases setup_queue_cases ok s with hq | hq
    · exact ⟨[], by simp [hq], Or.inl rfl⟩
    · exact ⟨[BCPClient.hello_message], by simp [hq], Or.inr rfl⟩
  · rw [if_neg h]
    exact ⟨[], by simp, Or.inl rfl⟩

/-- C8: a complete framed message that is not a display frame is decoded,
and is dispatched inline on the receive thread exactly when its decoded
command name is `hello` or `goodbye`; every other decoded command is
pushed onto the receive queue as a `(name, params)` pair. -/
theorem receive_loop_dispatch_rule (message cmd : String) (kwargs : List (String × String))
    (hframe : List.isPrefixOf (("dmd_frame").data) message.data = false)
    (hdec : decode_command_string message = PyResult.val (cmd, kwargs)) :
    BCPClient.handle_message message =
      PyResult.val (if cmd = "hello" ∨ cmd = "goodbye"
        then RxAction.inline cmd kwargs else RxAction.queued cmd kwargs) := by
  by_cases h : cmd = "hello" ∨ cmd = "goodbye"
  · have hm : cmd ∈ bcp_command_names := by
      rcases h with h | h <;> simp [bcp_command_names, h]
    simp [BCPClient.handle_message, hframe, hdec, hm, h]
  · have hm : cmd ∉ bcp_command_names := by
      simpa [bcp_command_names] using h
    simp [BCPClient.handle_message, hframe, hdec, hm, h]

/-- C8 witness: `switch?name=a&state=1` is not dispatched inline but pushed
onto the receive queue. -/
theorem receive_loop_dispatch_rule_witness :
    BCPClient.handle_message ("switch?name=a&state=1") =
      PyResult.val (RxAction.queued ("switch") [(("name"), ("a")), (("state"), ("1"))]) := by
  have h := receive_loop_dispatch_rule ("switch?name=a&state=1") ("switch")
    [(("name"), ("a")), (("state"), ("1"))] (by decide) (by decide)
  simpa using h

/-- C9: an inbound `goodbye` whose decoded parameter mapping is non-empty
makes the inline dispatch raise `TypeError` (`receive_goodbye(self)`
accepts no keyword parameters); a bare `goodbye` with no parameters is
handled without raising. -/
theorem goodbye_with_params_raises (message : String) (kwargs : List (String × String))
    (hdec : decode_command_string message = PyResult.val (("goodbye" : String), kwargs)) :
    (kwargs ≠ [] →
      BCPClient.dispatch_inline ("goodbye") kwargs = PyResult.exc PyExc.typeError) ∧
    (kwargs = [] →
      BCPClient.dispatch_inline ("goodbye") kwargs = PyResult.val InlineEffect.goodbyeRun) := by
  constructor
  · intro h; simp [BCPClient.dispatch_inline, h]
  · intro h; simp [BCPClient.dispatch_inline, h]

/-- C9 witness: the decodable message `goodbye?x=1` produces a `TypeError`
when its kwargs reach `receive_goodbye`. -/
theorem goodbye_with_params_raises_witness :
    BCPClient.dispatch_inline ("goodbye") [(("x"), ("1"))] = PyResult.exc PyExc.typeError :=
  (goodbye_with_params_raises ("goodbye?x=1") [(("x"), ("1"))] (by decide)).1 (by decide)

/- ------------------------------------------------------------------ -/
/- Helper lemmas about Python split and the framer                     -/

theorem pySplitOn_ne_nil (sep : Char) (l : List Char) : pySplitOn sep l ≠ [] := by
  cases l with
  | nil => simp [pySplitOn]
  | cons c cs => by_cases h : c = sep <;> simp [pySplitOn, h]

theorem headI_mem_of_ne_nil {α : Type} [Inhabited α] (l : List α) (h : l ≠ []) :
    l.headI ∈ l := by
  cases l with
  | nil => exact absurd rfl h
  | cons a t => simp [List.headI]

theorem pySplitOn_no_sep (sep : Char) (l : List Char) (h : sep ∉ l) :
    pySplitOn sep l = [l] := by
  induction l with
  | nil => rfl
  | cons c cs ih =>
    have hc : ¬(c = sep) := fun e => h (by simp [e])
    have hcs : sep ∉ cs := fun m => h (List.mem_cons_of_mem _ m)
    simp [pySplitOn, hc, ih hcs]

theorem pySplitOn_append_sep (sep : Char) (m xs : List Char) (h : sep ∉ m) :
    pySplitOn sep (m ++ sep :: xs) = m :: pySplitOn sep xs := by
  induction m with
  | nil => simp [pySplitOn]
  | cons c cm ih =>
    have hc : ¬(c = sep) := fun e => h (by simp [e])
    have hm : sep ∉ cm := fun hx => h (List.mem_cons_of_mem _ hx)
    simp [pySplitOn, hc, ih hm]

theorem pySplitOn_sep_not_mem (sep : Char) (l : List Char) :
    ∀ s ∈ pySplitOn sep l, sep ∉ s := by
  induction l with
  | nil =>
    intro s hs
    simp [pySplitOn] at hs
    subst hs
    simp
  | cons c cs ih =>
    intro s hs
    by_cases hc : c = sep
    · simp [pySplitOn, hc] at hs
      rcases hs with h | h
      · subst h; simp
      · exact ih s h
    · simp [pySplitOn, hc] at hs
      rcases hs with h | h
      · subst h
        intro hmem
        rcases List.mem_cons.mp hmem with h1 | h1
        · exact hc h1.symm
        · exact ih _ (headI_mem_of_ne_nil _ (pySplitOn_ne_nil sep cs)) h1
      · exact ih s (List.mem_of_mem_tail h)

theorem pyLast_concat : ∀ (l : List (List Char)) (x : List Char), pyLast (l ++ [x]) = x
  | [], _ => rfl
  | [_], _ => rfl
  | _ :: b :: t, x => by simpa [pyLast] using pyLast_concat (b :: t) x

theorem pyLast_mem : ∀ (l : List (List Char)), l ≠ [] → pyLast l ∈ l
  | [], h => absurd rfl h
  | [_], _ => by simp [pyLast]
  | _ :: b :: t, _ => by
    have hmem := pyLast_mem (b :: t) (by simp)
    simp only [pyLast]
    exact List.mem_cons_of_mem _ hmem

theorem foldl_stepChar (data : List Char) :
    ∀ (frag : List Char) (out : List (List Char)), '\n' ∉ frag →
      List.foldl stepChar (frag, out) data =
        (pyLast (pySplitOn '\n' (frag ++ data)),
         out ++ (pySplitOn '\n' (frag ++ data)).dropLast.filter (fun m => !m.isEmpty)) := by
  induction data with
  | nil =>
    intro frag out h
    simp [pySplitOn_no_sep '\n' frag h, pyLast]
  | cons c d ih =>
    intro frag out h
    by_cases hc : c = '\n'
    · subst hc
      rw [List.foldl_cons]
      have hstep : stepChar (frag, out) '\n' =
          ([], if frag = [] then out else out ++ [frag]) := by
        simp [stepChar]
      rw [hstep, ih [] _ (by simp)]
      simp only [List.nil_append]
      rw [pySplitOn_append_sep '\n' frag d h]
      obtain ⟨p, ps, hP⟩ := List.exists_cons_of_ne_nil (pySplitOn_ne_nil '\n' d)
      rw [hP]
      simp only [Prod.mk.injEq]
      constructor
      · simp [pyLast]
      · rw [List.dropLast_cons₂, List.filter_cons]
        by_cases hf : frag = [] <;> simp [hf, List.append_assoc]
    · rw [List.foldl_cons]
      have hstep : stepChar (frag, out) c = (frag ++ [c], out) := by
        simp [stepChar, hc]
      have hnl : '\n' ∉ frag ++ [c] := by
        simp only [List.mem_append, List.mem_singleton]
        rintro (h1 | h1)
        · exact h h1
        · exact hc h1.symm
      rw [hstep, ih (frag ++ [c]) out hnl]
      simp [List.append_assoc]

theorem bcp_assemble_eq (frag chunk : List Char) (h : '\n' ∉ frag) :
    bcp_assemble frag chunk =
      (pyLast (pySplitOn '\n' (frag ++ chunk)),
       (pySplitOn '\n' (frag ++ chunk)).dropLast.filter (fun m => !m.isEmpty)) := by
  by_cases hchunk : chunk = []
  · subst hchunk
    simp [bcp_assemble, pySplitOn_no_sep '\n' frag h, pyLast]
  · have hdata : (if frag = [] then chunk else frag ++ chunk) = frag ++ chunk := by
      by_cases hf : frag = [] <;> simp [hf]
    by_cases hnl : '\n' ∈ frag ++ chunk
    · simp [bcp_assemble, hchunk, hdata, hnl]
    · simp [bcp_assemble, hchunk, hdata, hnl,
        pySplitOn_no_sep '\n' _ hnl, pyLast]

theorem bcp_assemble_no_nl (frag chunk : List Char) (h : '\n' ∉ frag) :
    '\n' ∉ (bcp_assemble frag chunk).1 := by
  rw [bcp_assemble_eq frag chunk h]
  exact pySplitOn_sep_not_mem '\n' _ _ (pyLast_mem _ (pySplitOn_ne_nil '\n' _))

theorem feedAll_eq_foldl (cs : List (List Char)) :
    ∀ (frag : List Char) (out : List (List Char)), '\n' ∉ frag →
      List.foldl stepChar (frag, out) cs.flatten =
        ((feedAll frag cs).1, out ++ (feedAll frag cs).2) := by
  induction cs with
  | nil => intro frag out _; simp [feedAll]
  | cons c cs ih =>
    intro frag out h
    have hA := bcp_assemble_eq frag c h
    rw [List.flatten_cons, List.foldl_append, foldl_stepChar c frag out h]
    have hrw : (pyLast (pySplitOn '\n' (frag ++ c)),
        out ++ (pySplitOn '\n' (frag ++ c)).dropLast.filter (fun m => !m.isEmpty)) =
        ((bcp_assemble frag c).1, out ++ (bcp_assemble frag c).2) := by
      rw [hA]
    rw [hrw, ih _ _ (bcp_assemble_no_nl frag c h)]
    simp [feedAll, List.append_assoc]

theorem pySplitOn_stream (ms : List (List Char)) (r : List Char)
    (hm : ∀ m ∈ ms, '\n' ∉ m) (hr : '\n' ∉ r) :
    pySplitOn '\n' ((ms.map (fun m => m ++ ['\n'])).flatten ++ r) = ms ++ [r] := by
  induction ms with
  | nil => simpa using pySplitOn_no_sep '\n' r hr
  | cons m ms ih =>
    have h1 : '\n' ∉ m := hm m (by simp)
    have h2 : ∀ x ∈ ms, '\n' ∉ x := fun x hx => hm x (by simp [hx])
    simp only [List.map_cons, List.flatten_cons, List.append_assoc]
    rw [show m ++ (['\n'] ++ ((ms.map (fun m => m ++ ['\n'])).flatten ++ r)) =
        m ++ '\n' :: ((ms.map (fun m => m ++ ['\n'])).flatten ++ r) by simp]
    rw [pySplitOn_append_sep '\n' m _ h1, ih h2]
    simp

/-- C3: framer losslessness.  For every sequence of non-empty,
line-feed-free messages, every line-feed-free trailing remainder, and
every way of splitting the concatenated byte stream (each message
terminated by a line-feed, followed by the remainder) into sub-chunks,
feeding the chunks in order through the receive loop's framing logic
emits exactly those messages in order - no loss, no duplication - and
leaves the unterminated remainder in the fragment buffer. -/
theorem framer_lossless (ms : List (List Char)) (r : List Char) (cs : List (List Char))
    (hm : ∀ m ∈ ms, m ≠ [] ∧ '\n' ∉ m) (hr : '\n' ∉ r)
    (hsplit : cs.flatten = (ms.map (fun m => m ++ ['\n'])).flatten ++ r) :
    feedAll [] cs = (r, ms) := by
  have h0 : ('\n' : Char) ∉ ([] : List Char) := by simp
  have h1 := feedAll_eq_foldl cs [] [] h0
  rw [hsplit, foldl_stepChar _ [] [] h0, List.nil_append] at h1
  rw [pySplitOn_stream ms r (fun m hm2 => (hm m hm2).2) hr] at h1
  rw [pyLast_concat, List.dropLast_concat] at h1
  have hfil : ms.filter (fun m => !m.isEmpty) = ms :=
    List.filter_eq_self.mpr (fun m hm2 => by simpa using (hm m hm2).1)
  rw [hfil] at h1
  simp only [List.nil_append] at h1
  exact Prod.ext (congrArg Prod.fst h1).symm (congrArg Prod.snd h1).symm

/-- C3 witness: the stream `a\nbc\nd`, split as `a\nb | c | \nd`, emits
exactly `a` then `bc` and retains the fragment `d`. -/
theorem framer_lossless_witness :
    (∀ m ∈ [("a").data, ("bc").data], m ≠ [] ∧ '\n' ∉ m) ∧
    feedAll [] [("a\nb").data, ("c").data, ("\nd").data] =
      (("d").data, [("a").data, ("bc").data]) :=
  ⟨by decide,
   framer_lossless [("a").data, ("bc").data] (("d").data)
     [("a\nb").data, ("c").data, ("\nd").data] (by decide) (by decide) (by decide)⟩

/- ------------------------------------------------------------------ -/
/- Helper lemmas about the command codec                               -/

theorem data_asString (l : List Char) : (List.asString l).data = l := rfl

theorem asString_data (s : String) : (s.data).asString = s := rfl

theorem string_data_injective : Function.Injective String.data := by
  intro a b h
  rw [← asString_data a, ← asString_data b, h]

theorem lower_alnum_toLower : ∀ c ∈ lowerAlnumChars, Char.toLower c = c := by decide

theorem lower_alnum_quote : ∀ c ∈ lowerAlnumChars, quote_plus_char c = [c] := by decide

theorem alnum_toLower_mem : ∀ c ∈ alnumChars, Char.toLower c ∈ lowerAlnumChars := by decide

theorem no_mem_of_all_good (l : List Char) (x : Char)
    (hl : ∀ c ∈ l, c ∈ lowerAlnumChars) (hx : x ∉ lowerAlnumChars) : x ∉ l :=
  fun hm => hx (hl x hm)

theorem map_toLower_fix (l : List Char) (h : ∀ c ∈ l, Char.toLower c = c) :
    l.map Char.toLower = l := by
  induction l with
  | nil => rfl
  | cons c t ih =>
    simp only [List.map_cons, h c (by simp), ih (fun x hx => h x (by simp [hx]))]

theorem quote_plus_id (l : List Char) (h : ∀ c ∈ l, c ∈ lowerAlnumChars) :
    quote_plus l = l := by
  induction l with
  | nil => rfl
  | cons c t ih =>
    have hc : quote_plus_char c = [c] := lower_alnum_quote c (h c (by simp))
    have ht := ih (fun x hx => h x (by simp [hx]))
    simp only [quote_plus, List.map_cons, List.flatten_cons, hc] at *
    simp [ht]

theorem splitFirstChar_none (x : Char) (l : List Char) (h : x ∉ l) :
    splitFirstChar x l = none := by
  induction l with
  | nil => rfl
  | cons c t ih =>
    have hc : ¬(c = x) := fun e => h (by simp [e])
    have ht : x ∉ t := fun hm => h (List.mem_cons_of_mem _ hm)
    simp [splitFirstChar, hc, ih ht]

theorem splitFirstChar_append (x : Char) (a b : List Char) (h : x ∉ a) :
    splitFirstChar x (a ++ x :: b) = some (a, b) := by
  induction a with
  | nil => simp [splitFirstChar]
  | cons c t ih =>
    have hc : ¬(c = x) := fun e => h (by simp [e])
    have ht : x ∉ t := fun hm => h (List.mem_cons_of_mem _ hm)
    simp [splitFirstChar, hc, ih ht]

theorem plusToSpace_id (l : List Char) (h : '+' ∉ l) : plusToSpace l = l := by
  unfold plusToSpace
  induction l with
  | nil => rfl
  | cons c t ih =>
    have hc : ¬(c = '+') := fun e => h (by simp [e])
    have ht : '+' ∉ t := fun hm => h (List.mem_cons_of_mem _ hm)
    simp [hc, ih ht]

theorem unquote_no_pct (l : List Char) (h : '%' ∉ l) : unquote l = l := by
  unfold unquote
  rw [pySplitOn_no_sep '%' l h]

theorem take_two_ne_slashes (l : List Char) (h : '/' ∉ l) :
    l.take 2 ≠ ['/', '/'] := by
  intro he
  have hm : '/' ∈ l.take 2 := by rw [he]; simp
  exact h (List.take_subset 2 l hm)

theorem good_piece_not_mem (k v : List Char) (x : Char)
    (hk : ∀ c ∈ k, c ∈ lowerAlnumChars) (hv : ∀ c ∈ v, c ∈ lowerAlnumChars)
    (hx : x ∉ lowerAlnumChars) (hxe : x ≠ '=') : x ∉ k ++ '=' :: v := by
  intro hm
  rcases List.mem_append.mp hm with h | h
  · exact hx (hk x h)
  · rcases List.mem_cons.mp h with h1 | h1
    · exact hxe h1
    · exact hx (hv x h1)

theorem wire_not_mem (nameL q : List Char) (x : Char)
    (hn : ∀ c ∈ nameL, c ∈ lowerAlnumChars)
    (hq : ∀ c ∈ q, c ∈ lowerAlnumChars ∨ c = '=' ∨ c = '&')
    (hx1 : x ∉ lowerAlnumChars) (hx2 : x ≠ '?') (hx3 : x ≠ '=') (hx4 : x ≠ '&') :
    x ∉ nameL ++ '?' :: q := by
  intro hm
  rcases List.mem_append.mp hm with h | h
  · exact hx1 (hn x h)
  · rcases List.mem_cons.mp h with h1 | h1
    · exact hx2 h1
    · rcases hq x h1 with h2 | h2 | h2
      · exact hx1 h2
      · exact hx3 h2
      · exact hx4 h2

theorem urlsplit_no_query (l : List Char)
    (hc : ':' ∉ l) (hs : l.take 2 ≠ ['/', '/']) (hh : '#' ∉ l) (hq : '?' ∉ l) :
    urlsplit l = PyResult.val ⟨"", [], l, [], []⟩ := by
  have h1 : split_scheme l = ("", l) := by
    unfold split_scheme
    rw [splitFirstChar_none ':' l hc]
  have hf : uses_fragment.contains ("") = true := by decide
  have hq2 : uses_query.contains ("") = true := by decide
  have hfin : ("" : String) ∈ uses_fragment := by decide
  have hqin : ("" : String) ∈ uses_query := by decide
  simp [urlsplit, h1, hs, invalid_ipv6, hf, hq2, hfin, hqin,
    splitFirstChar_none '#' l hh, splitFirstChar_none '?' l hq]

theorem urlsplit_with_query (p q : List Char)
    (hc : ':' ∉ p ++ '?' :: q) (hs : (p ++ '?' :: q).take 2 ≠ ['/', '/'])
    (hh : '#' ∉ p ++ '?' :: q) (hp : '?' ∉ p) :
    urlsplit (p ++ '?' :: q) = PyResult.val ⟨"", [], p, q, []⟩ := by
  have h1 : split_scheme (p ++ '?' :: q) = ("", p ++ '?' :: q) := by
    unfold split_scheme
    rw [splitFirstChar_none ':' _ hc]
  have hf : uses_fragment.contains ("") = true := by decide
  have hq2 : uses_query.contains ("") = true := by decide
  have hfin : ("" : String) ∈ uses_fragment := by decide
  have hqin : ("" : String) ∈ uses_query := by decide
  simp [urlsplit, h1, hs, invalid_ipv6, hf, hq2, hfin, hqin,
    splitFirstChar_none '#' _ hh, splitFirstChar_append '?' p q hp]

theorem scrub_kwargs_ok (params : List (String × String)) :
    scrub_kwargs (params.map (fun p => (p.1, PyVal.ok p.2))) = Except.ok params := by
  induction params with
  | nil => rfl
  | cons p rest ih =>
    cases p
    simp [scrub_kwargs, ih]

theorem urlencodeL_ne_nil (k v : String) (rest : List (String × String)) :
    urlencodeL ((k, v) :: rest) ≠ [] := by
  cases rest <;> simp [urlencodeL]

theorem urlencode_chars (params : List (String × String))
    (h : ∀ p ∈ params, (∀ c ∈ (Prod.fst p).data, c ∈ lowerAlnumChars) ∧
         (∀ c ∈ (Prod.snd p).data, c ∈ lowerAlnumChars)) :
    ∀ c ∈ urlencodeL params, c ∈ lowerAlnumChars ∨ c = '=' ∨ c = '&' := by
  induction params with
  | nil => intro c hc; simp [urlencodeL] at hc
  | cons p rest ih =>
    obtain ⟨k, v⟩ := p
    have hk := (h (k, v) (by simp)).1
    have hv := (h (k, v) (by simp)).2
    have hrest : ∀ p ∈ rest, (∀ c ∈ (Prod.fst p).data, c ∈ lowerAlnumChars) ∧
        (∀ c ∈ (Prod.snd p).data, c ∈ lowerAlnumChars) :=
      fun p hp => h p (by simp [hp])
    have hkq : quote_plus k.data = k.data := quote_plus_id _ hk
    have hvq : quote_plus v.data = v.data := quote_plus_id _ hv
    intro c hc
    cases rest with
    | nil =>
      simp only [urlencodeL, hkq, hvq] at hc
      rcases List.mem_append.mp hc with h1 | h1
      · exact Or.inl (hk c h1)
      · rcases List.mem_cons.mp h1 with h2 | h2
        · exact Or.inr (Or.inl h2)
        · exact Or.inl (hv c h2)
    | cons q rest2 =>
      simp only [urlencodeL, hkq, hvq] at hc
      rcases List.mem_append.mp hc with h1 | h1
      · rcases List.mem_append.mp h1 with h2 | h2
        · exact Or.inl (hk c h2)
        · rcases List.mem_cons.mp h2 with h3 | h3
          · exact Or.inr (Or.inl h3)
          · exact Or.inl (hv c h3)
      · rcases List.mem_cons.mp h1 with h2 | h2
        · exact Or.inr (Or.inr h2)
        · exact ih hrest c h2

theorem parse_qsl_urlencode (params : List (String × String))
    (h : ∀ p ∈ params, (∀ c ∈ (Prod.fst p).data, c ∈ lowerAlnumChars) ∧
         (Prod.snd p).data ≠ [] ∧ (∀ c ∈ (Prod.snd p).data, c ∈ lowerAlnumChars)) :
    parse_qsl (urlencodeL params) =
      params.map (fun p => (p.1.data, p.2.data)) := by
  induction params with
  | nil => rfl
  | cons p rest ih =>
    obtain ⟨k, v⟩ := p
    have hk := (h (k, v) (by simp)).1
    have hvne := (h (k, v) (by simp)).2.1
    have hv := (h (k, v) (by simp)).2.2
    have hkq : quote_plus k.data = k.data := quote_plus_id _ hk
    have hvq : quote_plus v.data = v.data := quote_plus_id _ hv
    have hpiece_amp : '&' ∉ k.data ++ '=' :: v.data :=
      good_piece_not_mem k.data v.data '&' hk hv (by decide) (by decide)
    have hpiece_semi : ';' ∉ k.data ++ '=' :: v.data :=
      good_piece_not_mem k.data v.data ';' hk hv (by decide) (by decide)
    have hkeq : '=' ∉ k.data := no_mem_of_all_good _ _ hk (by decide)
    have hkplus : '+' ∉ k.data := no_mem_of_all_good _ _ hk (by decide)
    have hvplus : '+' ∉ v.data := no_mem_of_all_good _ _ hv (by decide)
    have hkpct : '%' ∉ k.data := no_mem_of_all_good _ _ hk (by decide)
    have hvpct : '%' ∉ v.data := no_mem_of_all_good _ _ hv (by decide)
    have hpair : parse_pair (k.data ++ '=' :: v.data) = some (k.data, v.data) := by
      unfold parse_pair
      rw [splitFirstChar_append '=' k.data v.data hkeq]
      show (if v.data = [] then none
            else some (unquote (plusToSpace k.data), unquote (plusToSpace v.data))) =
        some (k.data, v.data)
      rw [if_neg hvne, plusToSpace_id _ hkplus, plusToSpace_id _ hvplus,
          unquote_no_pct _ hkpct, unquote_no_pct _ hvpct]
    cases rest with
    | nil =>
      have he : urlencodeL [(k, v)] = quote_plus k.data ++ '=' :: quote_plus v.data := rfl
      rw [he, hkq, hvq]
      unfold parse_qsl
      rw [pySplitOn_no_sep '&' _ hpiece_amp]
      simp only [List.map_cons, List.map_nil, List.flatten_cons, List.flatten_nil,
        List.append_nil]
      rw [pySplitOn_no_sep ';' _ hpiece_semi]
      simp [hpair]
    | cons q rest2 =>
      have he : urlencodeL ((k, v) :: q :: rest2) =
          (quote_plus k.data ++ '=' :: quote_plus v.data) ++ '&' :: urlencodeL (q :: rest2) :=
        rfl
      rw [he, hkq, hvq]
      unfold parse_qsl
      rw [pySplitOn_append_sep '&' _ _ hpiece_amp]
      simp only [List.map_cons, List.flatten_cons]
      rw [pySplitOn_no_sep ';' _ hpiece_semi]
      rw [List.filterMap_append]
      have hPQ : parse_qsl (urlencodeL (q :: rest2)) =
          ((((pySplitOn '&' (urlencodeL (q :: rest2))).map (pySplitOn ';')).flatten).filterMap
            parse_pair) := rfl
      rw [← hPQ, ih (fun p hp => h p (by simp [hp]))]
      simp [hpair]

theorem dedupFirst_nodup_id (l : List (List Char × List Char))
    (h : (l.map Prod.fst).Nodup) : dedupFirst l = l := by
  induction l with
  | nil => rfl
  | cons p rest ih =>
    simp only [List.map_cons, List.nodup_cons] at h
    have h2 := ih h.2
    have hfil : rest.filter (fun q => !(q.1 == p.1)) = rest := by
      apply List.filter_eq_self.mpr
      intro q hq
      have hne : q.1 ≠ p.1 := by
        intro he
        exact h.1 (he ▸ List.mem_map_of_mem Prod.fst hq)
      simp [hne]
    simp only [dedupFirst, h2, hfil]

/-- C2 (corrected): for every command name consisting of ASCII
alphanumerics, and every parameter list with pairwise-distinct keys where
keys and values consist of lowercase ASCII alphanumerics and values are
non-empty, `decode_command_string (encode_command_string name params)`
yields `(name lowercased, params)` with key/value content unchanged.  The
lowercase restriction is forced by the code: `decode_command_string`
lowercases the whole wire string, so uppercase key or value characters do
not survive the round trip (see the counterexample theorem). -/
theorem encode_decode_roundtrip (name : String) (params : List (String × String))
    (hname : ∀ c ∈ name.data, c ∈ alnumChars)
    (hkv : ∀ p ∈ params, (∀ c ∈ (Prod.fst p).data, c ∈ lowerAlnumChars) ∧
           (Prod.snd p).data ≠ [] ∧ (∀ c ∈ (Prod.snd p).data, c ∈ lowerAlnumChars))
    (hnodup : (params.map Prod.fst).Nodup) :
    pyResultBind
      (encode_command_string name (params.map (fun p => (p.1, PyVal.ok p.2))))
      decode_command_string = PyResult.val (pyLower name, params) := by
  have hnL : ∀ c ∈ name.data.map Char.toLower, c ∈ lowerAlnumChars := by
    intro c hc
    rcases List.mem_map.mp hc with ⟨a, ha, rfl⟩
    exact alnum_toLower_mem a (hname a ha)
  have hfixn : (name.data.map Char.toLower).map Char.toLower =
      name.data.map Char.toLower :=
    map_toLower_fix _ (fun c hc => lower_alnum_toLower c (hnL c hc))
  cases params with
  | nil =>
    have henc : encode_command_string name ([] : List (String × PyVal)) =
        PyResult.val (pyLower name) := rfl
    simp only [List.map_nil, henc]
    show decode_command_string (pyLower name) = PyResult.val (pyLower name, [])
    have hd : (pyLower name).data.map Char.toLower = name.data.map Char.toLower := by
      simp only [pyLower, data_asString]
      exact hfixn
    unfold decode_command_string
    rw [hd, urlsplit_no_query (name.data.map Char.toLower)
      (no_mem_of_all_good _ _ hnL (by decide))
      (take_two_ne_slashes _ (no_mem_of_all_good _ _ hnL (by decide)))
      (no_mem_of_all_good _ _ hnL (by decide))
      (no_mem_of_all_good _ _ hnL (by decide))]
    rfl
  | cons p0 rest0 =>
    have hkv2 : ∀ p ∈ p0 :: rest0, (∀ c ∈ (Prod.fst p).data, c ∈ lowerAlnumChars) ∧
        (∀ c ∈ (Prod.snd p).data, c ∈ lowerAlnumChars) :=
      fun p hp => ⟨(hkv p hp).1, (hkv p hp).2.2⟩
    have hqchars := urlencode_chars (p0 :: rest0) hkv2
    have hqfix : ∀ c ∈ urlencodeL (p0 :: rest0), Char.toLower c = c := by
      intro c hc
      rcases hqchars c hc with h1 | h1 | h1
      · exact lower_alnum_toLower c h1
      · rw [h1]; decide
      · rw [h1]; decide
    have hqne : urlencodeL (p0 :: rest0) ≠ [] := by
      obtain ⟨k, v⟩ := p0
      exact urlencodeL_ne_nil k v rest0
    have hscrub := scrub_kwargs_ok (p0 :: rest0)
    have henc : encode_command_string name
        ((p0 :: rest0).map (fun p => (p.1, PyVal.ok p.2))) =
        PyResult.val (((pyLower name).data ++ '?' :: urlencodeL (p0 :: rest0)).asString) := by
      unfold encode_command_string
      rw [hscrub]
      show (if urlencodeL (p0 :: rest0) = [] then PyResult.val (pyLower name)
            else PyResult.val
              (((pyLower name).data ++ '?' :: urlencodeL (p0 :: rest0)).asString)) = _
      rw [if_neg hqne]
    rw [henc]
    show decode_command_string
        (((pyLower name).data ++ '?' :: urlencodeL (p0 :: rest0)).asString) =
      PyResult.val (pyLower name, p0 :: rest0)
    have hwd : ((((pyLower name).data ++ '?' :: urlencodeL (p0 :: rest0)).asString).data).map
        Char.toLower =
        (name.data.map Char.toLower) ++ '?' :: urlencodeL (p0 :: rest0) := by
      rw [data_asString]
      simp only [pyLower, data_asString, List.map_append, List.map_cons]
      rw [hfixn, map_toLower_fix _ hqfix,
        show Char.toLower '?' = '?' from by decide]
    have hq1 : ':' ∉ (name.data.map Char.toLower) ++ '?' :: urlencodeL (p0 :: rest0) :=
      wire_not_mem _ _ ':' hnL hqchars (by decide) (by decide) (by decide) (by decide)
    have hq2 : '/' ∉ (name.data.map Char.toLower) ++ '?' :: urlencodeL (p0 :: rest0) :=
      wire_not_mem _ _ '/' hnL hqchars (by decide) (by decide) (by decide) (by decide)
    have hq3 : '#' ∉ (name.data.map Char.toLower) ++ '?' :: urlencodeL (p0 :: rest0) :=
      wire_not_mem _ _ '#' hnL hqchars (by decide) (by decide) (by decide) (by decide)
    have hq4 : '?' ∉ name.data.map Char.toLower :=
      no_mem_of_all_good _ _ hnL (by decide)
    unfold decode_command_string
    rw [hwd, urlsplit_with_query (name.data.map Char.toLower)
      (urlencodeL (p0 :: rest0)) hq1 (take_two_ne_slashes _ hq2) hq3 hq4]
    show PyResult.val ((name.data.map Char.toLower).asString,
        (dedupFirst (parse_qsl (urlencodeL (p0 :: rest0)))).map
          (fun p => (p.1.asString, (unquote p.2).asString))) =
      PyResult.val (pyLower name, p0 :: rest0)
    rw [parse_qsl_urlencode (p0 :: rest0) hkv]
    have hnodup2 : (((p0 :: rest0).map
        (fun p : String × String => (p.1.data, p.2.data))).map Prod.fst).Nodup := by
      rw [List.map_map]
      have hco : (Prod.fst ∘ fun p : String × String => (p.1.data, p.2.data)) =
          (String.data ∘ Prod.fst) := rfl
      rw [hco, ← List.map_map]
      exact List.Nodup.map string_data_injective hnodup
    rw [dedupFirst_nodup_id _ hnodup2, List.map_map]
    have hmapid : ((p0 :: rest0).map ((fun p : List Char × List Char =>
        (p.1.asString, (unquote p.2).asString)) ∘
        (fun p : String × String => (p.1.data, p.2.data)))) = p0 :: rest0 := by
      rw [List.map_congr_left (g := fun p => p) ?_]
      · simp
      · intro p hp
        obtain ⟨k, v⟩ := p
        have hvpct : '%' ∉ v.data :=
          no_mem_of_all_good _ _ ((hkv (k, v) hp).2.2) (by decide)
        simp [Function.comp, unquote_no_pct _ hvpct, asString_data]
    rw [hmapid]
    rfl

/-- C2 counterexample: the round trip does not leave parameter content
unchanged for uppercase ASCII alphanumeric values - the decoder lowercases
the whole wire string, so value `V` of key `k` comes back as `v`. -/
theorem encode_decode_case_counterexample :
    pyResultBind (encode_command_string ("cmd") [(("k"), PyVal.ok ("V"))])
      decode_command_string = PyResult.val (("cmd"), [(("k"), ("v"))]) ∧
    ¬ pyResultBind (encode_command_string ("cmd") [(("k"), PyVal.ok ("V"))])
      decode_command_string = PyResult.val (("cmd"), [(("k"), ("V"))]) := by
  constructor
  · rfl
  · decide

/-- C2 witness: a mixed-case command name with a lowercase alphanumeric
parameter round-trips to the lowercased name and unchanged parameters. -/
theorem encode_decode_roundtrip_witness :
    pyResultBind (encode_command_string ("Trigger") [(("name"), PyVal.ok ("ball21"))])
      decode_command_string =
      PyResult.val (pyLower ("Trigger"), [(("name"), ("ball21"))]) :=
  encode_decode_roundtrip ("Trigger") [(("name"), ("ball21"))]
    (by decide) (by decide) (by decide)
